import Mathlib

/-!
Verification of the crochet-pattern pipeline in mat_display.py.

The embedding below translates the four algorithmic functions of the
source (generate_crochet_pattern, find_row_order, compute_gradient,
find_column_order) into Lean over exact rationals.  Machine floats are
modelled as rationals; numpy primitives that a function uses
(np.argmin, np.argmax, np.max, np.arange) are embedded with their
documented semantics on finite lists.  Code paths that raise a Python
exception (np.max on an empty array, np.arange with zero step) are
modelled with Option, returning none.  The scipy optimizer invoked by
find_column_order is an external library, so it is modelled as an
abstract parameter producing an OptimizeResult record, mirroring the
fields scipy exposes (x, success, status).
-/

/-- A 3D vertex position, mirroring one row of the vertices array. -/
structure Vec3 where
  x : ℚ
  y : ℚ
  z : ℚ
deriving DecidableEq

/-- The zero vector, value of np.zeros_like entries. -/
def Vec3.zero : Vec3 := ⟨0, 0, 0⟩

/-- Componentwise vector subtraction, as numpy broadcasting does. -/
def Vec3.sub (a b : Vec3) : Vec3 := ⟨a.x - b.x, a.y - b.y, a.z - b.z⟩

/-- Componentwise vector addition, as numpy broadcasting does. -/
def Vec3.add (a b : Vec3) : Vec3 := ⟨a.x + b.x, a.y + b.y, a.z + b.z⟩

/-- Scalar multiplication of a vector. -/
def Vec3.smul (c : ℚ) (v : Vec3) : Vec3 := ⟨c * v.x, c * v.y, c * v.z⟩

/-- Sum of a list of vectors, as np.sum along axis 0. -/
def vecSum (l : List Vec3) : Vec3 := l.foldr Vec3.add Vec3.zero

/-- Squared Euclidean distance between two vertices.  The source tests
np.linalg.norm(vertices - v) < 1e-5; since both sides are nonnegative
this is equivalent to comparing squared distance with (1e-5)^2, which
stays inside ℚ. -/
def dist2 (a b : Vec3) : ℚ :=
  (a.x - b.x) ^ 2 + (a.y - b.y) ^ 2 + (a.z - b.z) ^ 2

/-- A face of the mesh: a triple of vertex indices. -/
abbrev Face := ℕ × ℕ × ℕ

/-- Helper for npArgmin: scans the remaining list xs, where i is the
index of the head of xs in the original list, bi the index of the best
value seen so far and bv that value.  A strictly smaller value is
required to displace the incumbent, so ties keep the lowest index,
exactly as np.argmin does. -/
def argminAux : List ℚ → ℕ → ℕ → ℚ → ℕ
  | [], _, bi, _ => bi
  | v :: xs, i, bi, bv =>
    if v < bv then argminAux xs (i + 1) i v else argminAux xs (i + 1) bi bv

/-- np.argmin on a list: index of the first occurrence of the minimum
(0 on the empty list, where numpy would raise). -/
def npArgmin : List ℚ → ℕ
  | [] => 0
  | v :: xs => argminAux xs 1 0 v

/-- Helper for npArgmax, symmetric to argminAux. -/
def argmaxAux : List ℚ → ℕ → ℕ → ℚ → ℕ
  | [], _, bi, _ => bi
  | v :: xs, i, bi, bv =>
    if bv < v then argmaxAux xs (i + 1) i v else argmaxAux xs (i + 1) bi bv

/-- np.argmax on a list: index of the first occurrence of the maximum.
The source computes max_vertex with it but never uses the result. -/
def npArgmax : List ℚ → ℕ
  | [] => 0
  | v :: xs => argmaxAux xs 1 0 v

/-- np.max on a nonempty list (numpy raises on the empty list; callers
of this definition guard that case). -/
def npMax : List ℚ → ℚ
  | [] => 0
  | v :: xs => xs.foldl max v

/-- np.arange start stop step: the values start + k * step for
k = 0, 1, ... with length ceil((stop - start) / step) clamped at 0,
which for a positive step is exactly the k with start + k * step
below stop.  numpy raises ZeroDivisionError when step = 0, modelled
as none. -/
def npArange (start stop step : ℚ) : Option (List ℚ) :=
  if step = 0 then none
  else some ((List.range (⌈(stop - start) / step⌉).toNat).map
    (fun (k : ℕ) => start + (k : ℚ) * step))

/-- One stitch record of the pattern, as built in
generate_crochet_pattern lines 28-32. -/
structure Stitch where
  vertex_index : ℕ
  position : Vec3
  distance : ℚ
deriving DecidableEq

/-- The pattern record returned by generate_crochet_pattern
(lines 42-47). -/
structure Pattern where
  seed_vertex : ℕ
  row_edges : List (ℕ × ℕ)
  col_edges : List (ℕ × ℕ)
  stitches : List Stitch
deriving DecidableEq

/-- The row_edges list of generate_crochet_pattern: the loop over
enumerate(vertices) appends (i - 1, i) for every index i with 0 < i
(lines 33-34). -/
def mk_row_edges (n : ℕ) : List (ℕ × ℕ) :=
  (List.range n).filterMap (fun i => if 0 < i then some (i - 1, i) else none)

/-- The col_edges list of generate_crochet_pattern: zip of
row_edges[:-1] with row_edges[1:], emitting (start[1], end[0])
(lines 38-39). -/
def mk_col_edges (row_edges : List (ℕ × ℕ)) : List (ℕ × ℕ) :=
  (row_edges.dropLast.zip row_edges.tail).map (fun p => (p.1.2, p.2.1))

/-- generate_crochet_pattern (source lines 14-48).  The faces argument
is received but never read by the body.  The source also computes
max_vertex = np.argmax(distances) and never uses it; npArgmax above
embeds that dead computation.  Indexing distances[i] is modelled with
getD (the claims about this function supply matching lengths, under
which getD agrees with the numpy indexing). -/
def generate_crochet_pattern (vertices : List Vec3) (faces : List Face)
    (distances : List ℚ) : Pattern :=
  { seed_vertex := npArgmin distances
    row_edges := mk_row_edges vertices.length
    col_edges := mk_col_edges (mk_row_edges vertices.length)
    stitches := (List.range vertices.length).map (fun i =>
      { vertex_index := i
        position := vertices.getD i Vec3.zero
        distance := distances.getD i 0 }) }

/-- One entry of a row bucket in find_row_order (source lines 60-68). -/
structure RowEntry where
  vert_index : ℕ
  raw_distance : ℚ
  reg_distance : ℚ
deriving DecidableEq

/-- One bucket of find_row_order: the list comprehension over
enumerate(vertices) keeping the indices i with
|distances[i] - isoline_value| < w / 2 (source lines 60-68; only the
index of the enumeration is used). -/
def rowBucket (vertices : List Vec3) (distances : List ℚ) (w t : ℚ) :
    List RowEntry :=
  (List.range vertices.length).filterMap (fun i =>
    if |distances.getD i 0 - t| < w / 2 then
      some { vert_index := i
             raw_distance := distances.getD i 0
             reg_distance := t }
    else none)

/-- find_row_order (source lines 51-71): isoline_values =
np.arange(0, np.max(distances), w), one bucket appended per isoline
value.  np.max raises on an empty distances array and np.arange raises
when w = 0; both exceptional paths are modelled as none. -/
def find_row_order (vertices : List Vec3) (faces : List Face)
    (distances : List ℚ) (w : ℚ) : Option (List (List RowEntry)) :=
  if distances = [] then none
  else (npArange 0 (npMax distances) w).map (fun isoline_values =>
    isoline_values.map (fun t => rowBucket vertices distances w t))

/-- The squared epsilon of compute_gradient: (1e-5)^2. -/
def eps2 : ℚ := 1 / 10000000000

/-- The neighbor set of compute_gradient (source line 80):
np.where(np.linalg.norm(vertices - v, axis=1) < 1e-5)[0], the indices
of all vertices with positional distance below 1e-5 from v (the vertex
itself always qualifies). -/
def neighborIdx (vertices : List Vec3) (v : Vec3) : List ℕ :=
  (List.range vertices.length).filter
    (fun j => dist2 (vertices.getD j Vec3.zero) v < eps2)

/-- compute_gradient (source lines 75-85): gradients start as zeros;
a vertex with more than one neighbor gets the mean over its neighbors
of (values[neighbor] - values[i]) * (vertices[neighbor] - v), i.e. the
sum of those vectors scaled by one over the neighbor count, exactly
np.mean(value_deltas[:, np.newaxis] * deltas, axis=0). -/
def compute_gradient (vertices : List Vec3) (values : List ℚ) : List Vec3 :=
  (List.range vertices.length).map (fun i =>
    let v := vertices.getD i Vec3.zero
    let nbrs := neighborIdx vertices v
    if 1 < nbrs.length then
      Vec3.smul (1 / (nbrs.length : ℚ))
        (vecSum (nbrs.map (fun j =>
          Vec3.smul (values.getD j 0 - values.getD i 0)
            (Vec3.sub (vertices.getD j Vec3.zero) v))))
    else Vec3.zero)

/-- rotated_gradient (source lines 87-90): np.dot(gradients[:, :2], J.T)
with J = [[0, -1], [1, 0]] maps each (gx, gy) to (-gy, gx). -/
def rotated_gradient (gradients : List Vec3) : List (ℚ × ℚ) :=
  gradients.map (fun g => (-g.y, g.x))

/-- The record scipy.optimize.minimize returns: the solution vector x
together with the diagnostic fields success and status. -/
structure OptimizeResult where
  x : List ℚ
  success : Bool
  status : ℤ
deriving DecidableEq

/-- The assignment g_initial[boundary_indices] = 0 (source line 106):
set each listed index of g to 0. -/
def setBoundary (g : List ℚ) (boundary_indices : List ℕ) : List ℚ :=
  boundary_indices.foldl (fun acc i => acc.set i 0) g

/-- find_column_order (source lines 97-110).  scipy.optimize.minimize
is an external numerical library, modelled as the abstract parameter
minimizeImpl receiving the initial guess and the args tuple
(vertices, gradients, rotated_gradients) that the source passes.  The
body computes the gradients, builds g_initial = np.zeros(len(vertices))
with the boundary indices set to 0, runs the solver, and returns
result.x - unconditionally, without inspecting result.success or
result.status. -/
def find_column_order
    (minimizeImpl : List ℚ → List Vec3 × List Vec3 × List (ℚ × ℚ) →
      OptimizeResult)
    (vertices : List Vec3) (f_values : List ℚ)
    (boundary_indices : List ℕ) : List ℚ :=
  let gradients := compute_gradient vertices f_values
  let rotated_gradients := rotated_gradient gradients
  let g_initial := setBoundary (List.replicate vertices.length 0)
    boundary_indices
  (minimizeImpl g_initial (vertices, gradients, rotated_gradients)).x

/-! Helper lemmas about the embedded numpy primitives. -/

/-- Indexing a map over List.range below the length evaluates the
function at the index. -/
lemma getD_map_range {α : Type} (f : ℕ → α) (n i : ℕ) (d : α) (h : i < n) :
    ((List.range n).map f).getD i d = f i := by
  rw [List.getD_eq_getElem?_getD, List.getElem?_map, List.getElem?_range h]
  rfl

/-- Full behaviour of the argmin scan: either the incumbent survives,
in which case its value bounds every remaining element, or the result
points into the scanned list at the first occurrence of its strict
minimum below the incumbent value. -/
lemma argminAux_spec (xs : List ℚ) : ∀ (i bi : ℕ) (bv : ℚ),
    (argminAux xs i bi bv = bi ∧ ∀ k, k < xs.length → bv ≤ xs.getD k 0) ∨
    (∃ k, k < xs.length ∧ argminAux xs i bi bv = i + k ∧ xs.getD k 0 < bv ∧
      (∀ j, j < k → xs.getD k 0 < xs.getD j 0) ∧
      (∀ j, j < xs.length → xs.getD k 0 ≤ xs.getD j 0)) := by
  induction xs with
  | nil =>
    intro i bi bv
    left
    exact ⟨rfl, fun k hk => absurd hk (by simp)⟩
  | cons v t ih =>
    intro i bi bv
    by_cases hv : v < bv
    · rcases ih (i + 1) i v with ⟨heq, hall⟩ | ⟨k, hk, heq, hlt, hbef, hall⟩
      · right
        refine ⟨0, by simp, ?_, by simpa using hv, ?_, ?_⟩
        · have hstep : argminAux (v :: t) i bi bv = argminAux t (i + 1) i v := by
            simp [argminAux, hv]
          rw [hstep, heq]
          omega
        · intro j hj
          exact absurd hj (Nat.not_lt_zero j)
        · intro j hj
          cases j with
          | zero => simp
          | succ j =>
            simp only [List.getD_cons_zero, List.getD_cons_succ]
            exact hall j (by simpa using hj)
      · right
        refine ⟨k + 1, by simpa using hk, ?_, ?_, ?_, ?_⟩
        · have hstep : argminAux (v :: t) i bi bv = argminAux t (i + 1) i v := by
            simp [argminAux, hv]
          rw [hstep, heq]
          omega
        · simp only [List.getD_cons_succ]
          exact lt_trans hlt hv
        · intro j hj
          cases j with
          | zero =>
            simp only [List.getD_cons_zero, List.getD_cons_succ]
            exact hlt
          | succ j =>
            simp only [List.getD_cons_succ]
            exact hbef j (by omega)
        · intro j hj
          cases j with
          | zero =>
            simp only [List.getD_cons_zero, List.getD_cons_succ]
            exact le_of_lt hlt
          | succ j =>
            simp only [List.getD_cons_succ]
            exact hall j (by simpa using hj)
    · have hle : bv ≤ v := not_lt.mp hv
      rcases ih (i + 1) bi bv with ⟨heq, hall⟩ | ⟨k, hk, heq, hlt, hbef, hall⟩
      · left
        constructor
        · have hstep : argminAux (v :: t) i bi bv = argminAux t (i + 1) bi bv := by
            simp [argminAux, hv]
          rw [hstep, heq]
        · intro k hk
          cases k with
          | zero => simpa using hle
          | succ k =>
            simp only [List.getD_cons_succ]
            exact hall k (by simpa using hk)
      · right
        refine ⟨k + 1, by simpa using hk, ?_, ?_, ?_, ?_⟩
        · have hstep : argminAux (v :: t) i bi bv = argminAux t (i + 1) bi bv := by
            simp [argminAux, hv]
          rw [hstep, heq]
          omega
        · simp only [List.getD_cons_succ]
          exact hlt
        · intro j hj
          cases j with
          | zero =>
            simp only [List.getD_cons_zero, List.getD_cons_succ]
            exact lt_of_lt_of_le hlt hle
          | succ j =>
            simp only [List.getD_cons_succ]
            exact hbef j (by omega)
        · intro j hj
          cases j with
          | zero =>
            simp only [List.getD_cons_zero, List.getD_cons_succ]
            exact le_of_lt (lt_of_lt_of_le hlt hle)
          | succ j =>
            simp only [List.getD_cons_succ]
            exact hall j (by simpa using hj)

/-- npArgmin returns an in-range index holding a minimal value, and
every earlier index holds a strictly larger value: the first
occurrence of the minimum. -/
lemma npArgmin_spec (d : List ℚ) (hne : d ≠ []) :
    npArgmin d < d.length ∧
    (∀ j, j < d.length → d.getD (npArgmin d) 0 ≤ d.getD j 0) ∧
    (∀ j, j < npArgmin d → d.getD (npArgmin d) 0 < d.getD j 0) := by
  cases d with
  | nil => exact absurd rfl hne
  | cons v t =>
    have hmin : npArgmin (v :: t) = argminAux t 1 0 v := rfl
    rcases argminAux_spec t 1 0 v with ⟨heq, hall⟩ | ⟨k, hk, heq, hlt, hbef, hall⟩
    · rw [hmin, heq]
      refine ⟨by simp, ?_, ?_⟩
      · intro j hj
        cases j with
        | zero => simp
        | succ j =>
          simp only [List.getD_cons_zero, List.getD_cons_succ]
          exact hall j (by simpa using hj)
      · intro j hj
        exact absurd hj (Nat.not_lt_zero j)
    · have h1k : 1 + k = k + 1 := Nat.add_comm 1 k
      rw [hmin, heq, h1k]
      refine ⟨by simpa using hk, ?_, ?_⟩
      · intro j hj
        cases j with
        | zero =>
          simp only [List.getD_cons_zero, List.getD_cons_succ]
          exact le_of_lt hlt
        | succ j =>
          simp only [List.getD_cons_succ]
          exact hall j (by simpa using hj)
      · intro j hj
        cases j with
        | zero =>
          simp only [List.getD_cons_zero, List.getD_cons_succ]
          exact hlt
        | succ j =>
          simp only [List.getD_cons_succ]
          exact hbef j (by omega)

/-- The row_edges list on n + 1 vertices is the list of consecutive
index pairs (j, j + 1) for j below n. -/
lemma mk_row_edges_succ (n : ℕ) :
    mk_row_edges (n + 1) = (List.range n).map (fun j => (j, j + 1)) := by
  induction n with
  | zero => rfl
  | succ n ih =>
    rw [mk_row_edges, List.range_succ, List.filterMap_append]
    rw [mk_row_edges] at ih
    rw [ih, List.range_succ, List.map_append]
    simp

/-- The loop emits one row edge per vertex after the first. -/
lemma length_mk_row_edges (n : ℕ) : (mk_row_edges n).length = n - 1 := by
  cases n with
  | zero => rfl
  | succ n =>
    rw [mk_row_edges_succ, List.length_map, List.length_range]
    omega

/-- Dropping the last element of a mapped range shortens the range. -/
lemma dropLast_map_range {α : Type} (f : ℕ → α) (n : ℕ) :
    ((List.range (n + 1)).map f).dropLast = (List.range n).map f := by
  rw [List.range_succ, List.map_append]
  simp

/-- The tail of a mapped range shifts the function by one. -/
lemma tail_map_range {α : Type} (f : ℕ → α) (n : ℕ) :
    ((List.range (n + 1)).map f).tail = (List.range n).map (fun j => f (j + 1)) := by
  rw [List.range_succ_eq_map, List.map_cons, List.tail_cons, List.map_map]
  rfl

/-- zip of row_edges[:-1] with row_edges[1:] always has one entry
fewer than row_edges. -/
lemma length_mk_col_edges (l : List (ℕ × ℕ)) :
    (mk_col_edges l).length = l.length - 1 := by
  rw [mk_col_edges, List.length_map, List.length_zip, List.length_dropLast,
    List.length_tail, Nat.min_self]

/-- On the consecutive-pair row edges, every column edge joins the
second component of (j, j+1) to the first component of (j+1, j+2):
both are j + 1, a self-loop. -/
lemma mk_col_edges_form (m : ℕ) :
    mk_col_edges ((List.range m).map (fun j => (j, j + 1))) =
      (List.range (m - 1)).map (fun j => (j + 1, j + 1)) := by
  cases m with
  | zero => rfl
  | succ n =>
    rw [mk_col_edges, dropLast_map_range, tail_map_range, List.zip_map',
      List.map_map]
    rfl

/-- With start 0 and a nonzero step, npArange is the list of the
multiples k * step for k below the ceiling of stop / step. -/
lemma npArange_pos (stop step : ℚ) (h : step ≠ 0) :
    npArange 0 stop step =
      some ((List.range (⌈stop / step⌉).toNat).map
        (fun (k : ℕ) => (k : ℚ) * step)) := by
  rw [npArange, if_neg h]
  simp [sub_zero, zero_add]

/-- A natural number is below the clamped ceiling of M / w exactly
when its multiple of w is below M (for positive w): the emitted
isoline values are precisely the k * w below the field maximum. -/
lemma lt_ceil_toNat_iff (M w : ℚ) (hw : 0 < w) (k : ℕ) :
    k < (⌈M / w⌉).toNat ↔ (k : ℚ) * w < M := by
  rw [Int.lt_toNat, Int.lt_ceil]
  push_cast
  rw [lt_div_iff₀ hw]

/-- For a nonzero spacing and a nonempty field, find_row_order
succeeds and returns one bucket per emitted isoline value k * w. -/
lemma find_row_order_eq (vertices : List Vec3) (faces : List Face)
    (d : List ℚ) (w : ℚ) (hw : w ≠ 0) (hne : d ≠ []) :
    find_row_order vertices faces d w =
      some ((List.range (⌈npMax d / w⌉).toNat).map
        (fun (k : ℕ) => rowBucket vertices d w ((k : ℚ) * w))) := by
  rw [find_row_order, if_neg hne, npArange_pos _ _ hw, Option.map_some',
    List.map_map]
  rfl

/-- Membership in a bucket: exactly the in-range vertex indices whose
field value is within w / 2 of the isoline value, recorded with their
raw field value and the isoline value. -/
lemma mem_rowBucket (vertices : List Vec3) (d : List ℚ) (w t : ℚ)
    (e : RowEntry) :
    e ∈ rowBucket vertices d w t ↔
      e.vert_index < vertices.length ∧
      |d.getD e.vert_index 0 - t| < w / 2 ∧
      e.raw_distance = d.getD e.vert_index 0 ∧ e.reg_distance = t := by
  rw [rowBucket, List.mem_filterMap]
  constructor
  · rintro ⟨i, hi, hsome⟩
    rw [List.mem_range] at hi
    by_cases hc : |d.getD i 0 - t| < w / 2
    · rw [if_pos hc] at hsome
      obtain rfl := Option.some.inj hsome
      exact ⟨hi, hc, rfl, rfl⟩
    · rw [if_neg hc] at hsome
      exact absurd hsome (by simp)
  · rintro ⟨h1, h2, h3, h4⟩
    refine ⟨e.vert_index, List.mem_range.mpr h1, ?_⟩
    rw [if_pos h2]
    cases e with
    | mk a b c =>
      simp only at h3 h4
      rw [h3, h4]

/-- Within a bucket, vertex indices appear in strictly increasing
order, inherited from the enumeration order of the comprehension. -/
lemma pairwise_rowBucket (vertices : List Vec3) (d : List ℚ) (w t : ℚ) :
    (rowBucket vertices d w t).Pairwise
      (fun a b => a.vert_index < b.vert_index) := by
  rw [rowBucket]
  refine List.Pairwise.filterMap _ ?_ (List.pairwise_lt_range _)
  intro a a' haa b hb b' hb'
  have hba : b.vert_index = a := by
    by_cases hc : |d.getD a 0 - t| < w / 2
    · rw [if_pos hc] at hb
      obtain rfl := Option.mem_some_iff.mp hb
      rfl
    · rw [if_neg hc] at hb
      exact absurd hb (by simp)
  have hba' : b'.vert_index = a' := by
    by_cases hc : |d.getD a' 0 - t| < w / 2
    · rw [if_pos hc] at hb'
      obtain rfl := Option.mem_some_iff.mp hb'
      rfl
    · rw [if_neg hc] at hb'
      exact absurd hb' (by simp)
  rw [hba, hba']
  exact haa

/-- For a field value dv that is nonnegative, at least w / 2 below the
maximum, and not exactly halfway between two isoline values, the
isoline value nearest to dv is emitted and captures it within strict
tolerance w / 2. -/
lemma exists_nearest_isoline (dv w M : ℚ) (hw : 0 < w) (h0 : 0 ≤ dv)
    (hM : dv + w / 2 ≤ M) (hodd : ∀ k : ℕ, dv ≠ (k : ℚ) * w + w / 2) :
    ∃ k : ℕ, (k : ℚ) * w < M ∧ |dv - (k : ℚ) * w| < w / 2 := by
  have hq0 : 0 ≤ dv / w := div_nonneg h0 hw.le
  set c : ℤ := ⌊dv / w + 1 / 2⌋ with hc
  have hc0 : 0 ≤ c := by
    apply Int.le_floor.mpr
    push_cast
    linarith
  have hfl : (c : ℚ) ≤ dv / w + 1 / 2 := Int.floor_le _
  have hfu : dv / w + 1 / 2 < (c : ℚ) + 1 := Int.lt_floor_add_one _
  have hwm : dv / w * w = dv := div_mul_cancel₀ dv (ne_of_gt hw)
  have hne2 : (c : ℚ) ≠ dv / w + 1 / 2 := by
    intro heq
    have hcpos : 0 < c := by
      have h1 : (0 : ℚ) < (c : ℚ) := by
        rw [heq]
        linarith
      exact_mod_cast h1
    have hcast : (((c - 1).toNat : ℕ) : ℚ) = (c : ℚ) - 1 := by
      have h1 : ((c - 1).toNat : ℤ) = c - 1 := Int.toNat_of_nonneg (by omega)
      exact_mod_cast congrArg (fun z : ℤ => (z : ℚ)) h1
    apply hodd (c - 1).toNat
    have hdv : dv = ((c : ℚ) - 1 / 2) * w := by
      calc dv = dv / w * w := hwm.symm
        _ = (dv / w + 1 / 2 - 1 / 2) * w := by ring
        _ = ((c : ℚ) - 1 / 2) * w := by rw [heq]
    rw [hcast, hdv]
    ring
  have hstrict : (c : ℚ) < dv / w + 1 / 2 := lt_of_le_of_ne hfl hne2
  have hcast : ((c.toNat : ℕ) : ℚ) = (c : ℚ) := by
    exact_mod_cast congrArg (fun z : ℤ => (z : ℚ)) (Int.toNat_of_nonneg hc0)
  refine ⟨c.toNat, ?_, ?_⟩
  · rw [hcast]
    have h1 : (c : ℚ) * w < (dv / w + 1 / 2) * w :=
      mul_lt_mul_of_pos_right hstrict hw
    have h2 : (dv / w + 1 / 2) * w = dv + w / 2 := by
      rw [add_mul, hwm]
      ring
    linarith
  · rw [hcast, abs_sub_lt_iff]
    constructor
    · have h1 : dv / w < (c : ℚ) + 1 / 2 := by linarith
      have h2 : dv / w * w < ((c : ℚ) + 1 / 2) * w :=
        mul_lt_mul_of_pos_right h1 hw
      rw [hwm, add_mul] at h2
      linarith
    · have h2 : (c : ℚ) * w < (dv / w + 1 / 2) * w :=
        mul_lt_mul_of_pos_right hstrict hw
      rw [add_mul, hwm] at h2
      linarith

/-! Claim theorems. -/

/-- C1: for every input mesh with N >= 2 vertices and any field array
of length N, generate_crochet_pattern returns a pattern with exactly N
stitches, exactly N - 1 row_edges, and exactly N - 2 col_edges, so
that len(row_edges) = len(stitches) - 1 and
len(col_edges) = len(row_edges) - 1. -/
theorem pattern_edge_counts (vertices : List Vec3) (faces : List Face)
    (d : List ℚ) (hN : 2 ≤ vertices.length)
    (hd : d.length = vertices.length) :
    (generate_crochet_pattern vertices faces d).stitches.length =
      vertices.length ∧
    (generate_crochet_pattern vertices faces d).row_edges.length =
      vertices.length - 1 ∧
    (generate_crochet_pattern vertices faces d).col_edges.length =
      vertices.length - 2 ∧
    (generate_crochet_pattern vertices faces d).row_edges.length =
      (generate_crochet_pattern vertices faces d).stitches.length - 1 ∧
    (generate_crochet_pattern vertices faces d).col_edges.length =
      (generate_crochet_pattern vertices faces d).row_edges.length - 1 := by
  have hs : (generate_crochet_pattern vertices faces d).stitches.length =
      vertices.length := by
    show ((List.range vertices.length).map _).length = _
    rw [List.length_map, List.length_range]
  have hr : (generate_crochet_pattern vertices faces d).row_edges.length =
      vertices.length - 1 := by
    show (mk_row_edges vertices.length).length = _
    exact length_mk_row_edges _
  have hcl : (generate_crochet_pattern vertices faces d).col_edges.length =
      vertices.length - 2 := by
    show (mk_col_edges (mk_row_edges vertices.length)).length = _
    rw [length_mk_col_edges, length_mk_row_edges]
    omega
  refine ⟨hs, hr, hcl, by rw [hr, hs], by rw [hcl, hr]; omega⟩

/-- C1 witness: the counts at the concrete two-vertex mesh with field
[0, 1]: 2 stitches, 1 row edge, 0 col edges. -/
theorem pattern_edge_counts_witness :
    (2 ≤ ([⟨0, 0, 0⟩, ⟨1, 0, 0⟩] : List Vec3).length ∧
      ([0, 1] : List ℚ).length =
        ([⟨0, 0, 0⟩, ⟨1, 0, 0⟩] : List Vec3).length) ∧
    ((generate_crochet_pattern [⟨0, 0, 0⟩, ⟨1, 0, 0⟩] [] [0, 1]).stitches.length =
      ([⟨0, 0, 0⟩, ⟨1, 0, 0⟩] : List Vec3).length ∧
    (generate_crochet_pattern [⟨0, 0, 0⟩, ⟨1, 0, 0⟩] [] [0, 1]).row_edges.length =
      ([⟨0, 0, 0⟩, ⟨1, 0, 0⟩] : List Vec3).length - 1 ∧
    (generate_crochet_pattern [⟨0, 0, 0⟩, ⟨1, 0, 0⟩] [] [0, 1]).col_edges.length =
      ([⟨0, 0, 0⟩, ⟨1, 0, 0⟩] : List Vec3).length - 2 ∧
    (generate_crochet_pattern [⟨0, 0, 0⟩, ⟨1, 0, 0⟩] [] [0, 1]).row_edges.length =
      (generate_crochet_pattern [⟨0, 0, 0⟩, ⟨1, 0, 0⟩] [] [0, 1]).stitches.length - 1 ∧
    (generate_crochet_pattern [⟨0, 0, 0⟩, ⟨1, 0, 0⟩] [] [0, 1]).col_edges.length =
      (generate_crochet_pattern [⟨0, 0, 0⟩, ⟨1, 0, 0⟩] [] [0, 1]).row_edges.length - 1) :=
  ⟨⟨by norm_num, by norm_num⟩,
    pattern_edge_counts [⟨0, 0, 0⟩, ⟨1, 0, 0⟩] [] [0, 1] (by norm_num) (by norm_num)⟩

/-- C2: for every non-empty field array, the seed_vertex returned by
generate_crochet_pattern is an in-range index whose field value is
minimal, and every smaller index holds a strictly larger value: the
first occurrence of the minimum, as np.argmin computes. -/
theorem seed_vertex_first_argmin (vertices : List Vec3) (faces : List Face)
    (d : List ℚ) (hne : d ≠ []) :
    (generate_crochet_pattern vertices faces d).seed_vertex < d.length ∧
    (∀ j, j < d.length →
      d.getD (generate_crochet_pattern vertices faces d).seed_vertex 0 ≤
        d.getD j 0) ∧
    (∀ j, j < (generate_crochet_pattern vertices faces d).seed_vertex →
      d.getD (generate_crochet_pattern vertices faces d).seed_vertex 0 <
        d.getD j 0) := by
  have hseed : (generate_crochet_pattern vertices faces d).seed_vertex =
      npArgmin d := rfl
  rw [hseed]
  exact npArgmin_spec d hne

/-- C2 witness: on the tied field [3, 1, 1, 2] the seed properties
hold at the concrete input (the seed is index 1, the first of the two
minima). -/
theorem seed_vertex_first_argmin_witness :
    (([3, 1, 1, 2] : List ℚ) ≠ [] ∧
      (generate_crochet_pattern [⟨0, 0, 0⟩] [] [3, 1, 1, 2]).seed_vertex = 1) ∧
    ((generate_crochet_pattern [⟨0, 0, 0⟩] [] [3, 1, 1, 2]).seed_vertex <
      ([3, 1, 1, 2] : List ℚ).length ∧
    (∀ j, j < ([3, 1, 1, 2] : List ℚ).length →
      ([3, 1, 1, 2] : List ℚ).getD
          (generate_crochet_pattern [⟨0, 0, 0⟩] [] [3, 1, 1, 2]).seed_vertex 0 ≤
        ([3, 1, 1, 2] : List ℚ).getD j 0) ∧
    (∀ j, j < (generate_crochet_pattern [⟨0, 0, 0⟩] [] [3, 1, 1, 2]).seed_vertex →
      ([3, 1, 1, 2] : List ℚ).getD
          (generate_crochet_pattern [⟨0, 0, 0⟩] [] [3, 1, 1, 2]).seed_vertex 0 <
        ([3, 1, 1, 2] : List ℚ).getD j 0)) :=
  ⟨⟨by simp, by norm_num [generate_crochet_pattern, npArgmin, argminAux]⟩,
    seed_vertex_first_argmin [⟨0, 0, 0⟩] [] [3, 1, 1, 2] (by simp)⟩

/-- C9: for every mesh with N >= 3 vertices, the col_edges are exactly
the degenerate self-loops (1, 1), ..., (N - 2, N - 2); in particular
both endpoints of every col_edge coincide. -/
theorem col_edges_degenerate (vertices : List Vec3) (faces : List Face)
    (d : List ℚ) (h3 : 3 ≤ vertices.length) :
    (generate_crochet_pattern vertices faces d).col_edges =
      (List.range (vertices.length - 2)).map (fun i => (i + 1, i + 1)) ∧
    ∀ p ∈ (generate_crochet_pattern vertices faces d).col_edges,
      p.1 = p.2 := by
  obtain ⟨n, hn⟩ : ∃ n, vertices.length = n + 1 :=
    ⟨vertices.length - 1, by omega⟩
  have hform : (generate_crochet_pattern vertices faces d).col_edges =
      (List.range (vertices.length - 2)).map (fun i => (i + 1, i + 1)) := by
    show mk_col_edges (mk_row_edges vertices.length) = _
    rw [hn, mk_row_edges_succ, mk_col_edges_form]
    congr 1
  refine ⟨hform, ?_⟩
  rw [hform]
  intro p hp
  rw [List.mem_map] at hp
  obtain ⟨j, _, rfl⟩ := hp
  rfl

/-- C9 witness: on a concrete 3-vertex mesh the col_edges are the
single self-loop (1, 1). -/
theorem col_edges_degenerate_witness :
    (3 ≤ ([⟨0, 0, 0⟩, ⟨1, 0, 0⟩, ⟨0, 1, 0⟩] : List Vec3).length) ∧
    ((generate_crochet_pattern [⟨0, 0, 0⟩, ⟨1, 0, 0⟩, ⟨0, 1, 0⟩] [] [0, 1, 2]).col_edges =
      (List.range (([⟨0, 0, 0⟩, ⟨1, 0, 0⟩, ⟨0, 1, 0⟩] : List Vec3).length - 2)).map
        (fun i => (i + 1, i + 1)) ∧
    ∀ p ∈ (generate_crochet_pattern [⟨0, 0, 0⟩, ⟨1, 0, 0⟩, ⟨0, 1, 0⟩] [] [0, 1, 2]).col_edges,
      p.1 = p.2) :=
  ⟨by norm_num,
    col_edges_degenerate [⟨0, 0, 0⟩, ⟨1, 0, 0⟩, ⟨0, 1, 0⟩] [] [0, 1, 2] (by norm_num)⟩

/-- C10: neither generate_crochet_pattern nor find_row_order reads the
faces argument, so their outputs are identical across any two face
lists, with all other arguments fixed. -/
theorem faces_not_read (vertices : List Vec3) (d : List ℚ) (w : ℚ)
    (faces1 faces2 : List Face) :
    generate_crochet_pattern vertices faces1 d =
      generate_crochet_pattern vertices faces2 d ∧
    find_row_order vertices faces1 d w = find_row_order vertices faces2 d w :=
  ⟨rfl, rfl⟩

/-- C3: for every positive spacing w, find_row_order returns one
bucket per isoline value k * w with k * w below max(field), indexed by
k in increasing order of the isoline value (so an empty bucket is
still emitted); an entry belongs to bucket k exactly when its vertex
index is in range and its field value is within w / 2 of k * w, and
within each bucket the vertex indices are strictly increasing. -/
theorem row_order_bucket_spec (vertices : List Vec3) (faces : List Face)
    (d : List ℚ) (w : ℚ) (hw : 0 < w) (hne : d ≠ [])
    (hlen : vertices.length = d.length) :
    ∃ rows : List (List RowEntry),
      find_row_order vertices faces d w = some rows ∧
      (∀ k : ℕ, k < rows.length ↔ (k : ℚ) * w < npMax d) ∧
      ∀ k, k < rows.length →
        (∀ e : RowEntry, e ∈ rows.getD k [] ↔
          e.vert_index < vertices.length ∧
          |d.getD e.vert_index 0 - (k : ℚ) * w| < w / 2 ∧
          e.raw_distance = d.getD e.vert_index 0 ∧
          e.reg_distance = (k : ℚ) * w) ∧
        (rows.getD k []).Pairwise (fun a b => a.vert_index < b.vert_index) := by
  refine ⟨_, find_row_order_eq vertices faces d w (ne_of_gt hw) hne, ?_, ?_⟩
  · intro k
    rw [List.length_map, List.length_range]
    exact lt_ceil_toNat_iff (npMax d) w hw k
  · intro k hk
    rw [List.length_map, List.length_range] at hk
    rw [getD_map_range _ _ _ _ hk]
    exact ⟨fun e => mem_rowBucket vertices d w ((k : ℚ) * w) e,
      pairwise_rowBucket vertices d w ((k : ℚ) * w)⟩

/-- C3 witness: the bucket characterization at the concrete input of
two vertices with field [0, 1] and spacing 1. -/
theorem row_order_bucket_spec_witness :
    ((0 : ℚ) < 1 ∧ ([0, 1] : List ℚ) ≠ [] ∧
      ([⟨0, 0, 0⟩, ⟨1, 0, 0⟩] : List Vec3).length =
        ([0, 1] : List ℚ).length) ∧
    (∃ rows : List (List RowEntry),
      find_row_order [⟨0, 0, 0⟩, ⟨1, 0, 0⟩] [] [0, 1] 1 = some rows ∧
      (∀ k : ℕ, k < rows.length ↔ (k : ℚ) * 1 < npMax [0, 1]) ∧
      ∀ k, k < rows.length →
        (∀ e : RowEntry, e ∈ rows.getD k [] ↔
          e.vert_index < ([⟨0, 0, 0⟩, ⟨1, 0, 0⟩] : List Vec3).length ∧
          |([0, 1] : List ℚ).getD e.vert_index 0 - (k : ℚ) * 1| < 1 / 2 ∧
          e.raw_distance = ([0, 1] : List ℚ).getD e.vert_index 0 ∧
          e.reg_distance = (k : ℚ) * 1) ∧
        (rows.getD k []).Pairwise (fun a b => a.vert_index < b.vert_index)) :=
  ⟨⟨by norm_num, by simp, by norm_num⟩,
    row_order_bucket_spec [⟨0, 0, 0⟩, ⟨1, 0, 0⟩] [] [0, 1] 1 (by norm_num)
      (by simp) (by norm_num)⟩

/-- C4 counterexample: with field [9/10, 1] and spacing w = 1 the only
emitted isoline value is 0, and its bucket is empty, although vertex 0
has field value 9/10 strictly below the maximum 1.  So a vertex with
field[v] < max(field) can appear in no bucket, refuting the claim. -/
theorem row_coverage_counterexample :
    find_row_order [⟨0, 0, 0⟩, ⟨1, 0, 0⟩] [] [9 / 10, 1] 1 = some [[]] ∧
    (9 / 10 : ℚ) < npMax [9 / 10, 1] := by
  constructor
  · rw [find_row_order, if_neg (by simp), npArange,
      if_neg (by norm_num : (1 : ℚ) ≠ 0)]
    have hmax : npMax [9 / 10, 1] = 1 := by norm_num [npMax]
    have h1 : ((1 : ℚ) - 0) / 1 = 1 := by norm_num
    have h0 : (⌈(1 : ℚ)⌉) = 1 := by norm_num
    rw [hmax, h1, h0, show ((1 : ℤ).toNat) = 1 from rfl]
    simp only [List.range_succ, List.range_zero, List.nil_append,
      List.map_cons, List.map_nil, Option.map_some']
    norm_num [rowBucket, List.range_succ, abs_sub_lt_iff, abs_lt,
      List.filterMap_cons, List.filterMap_nil, List.getElem?_cons_zero,
      List.getElem?_cons_succ, Option.getD_some]
  · norm_num [npMax]

/-- C4 amended: for every positive spacing w and every vertex v whose
field value is nonnegative, at most max(field) - w / 2, and not
exactly halfway between two isoline values (dv = k * w + w / 2),
vertex v appears in at least one bucket returned by find_row_order.
The counterexample shows the restriction near the maximum is needed
(a value within w / 2 of the maximum can have its nearest isoline at
or beyond the maximum, which is not emitted), and the exact-halfway
exclusion is needed because the source compares with a strict
inequality. -/
theorem row_coverage_amended (vertices : List Vec3) (faces : List Face)
    (d : List ℚ) (w : ℚ) (hw : 0 < w) (hne : d ≠ []) (v : ℕ)
    (hv : v < vertices.length) (h0 : 0 ≤ d.getD v 0)
    (hM : d.getD v 0 + w / 2 ≤ npMax d)
    (hodd : ∀ k : ℕ, d.getD v 0 ≠ (k : ℚ) * w + w / 2) :
    ∃ rows, find_row_order vertices faces d w = some rows ∧
      ∃ k, k < rows.length ∧
        ({ vert_index := v, raw_distance := d.getD v 0,
           reg_distance := (k : ℚ) * w } : RowEntry) ∈ rows.getD k [] := by
  obtain ⟨k, hkM, hkab⟩ :=
    exists_nearest_isoline (d.getD v 0) w (npMax d) hw h0 hM hodd
  have hk2 : k < (⌈npMax d / w⌉).toNat :=
    (lt_ceil_toNat_iff (npMax d) w hw k).mpr hkM
  refine ⟨_, find_row_order_eq vertices faces d w (ne_of_gt hw) hne, k, ?_, ?_⟩
  · rw [List.length_map, List.length_range]
    exact hk2
  · rw [getD_map_range _ _ _ _ hk2, mem_rowBucket]
    exact ⟨hv, hkab, rfl, rfl⟩

/-- C4 amended witness: vertex 0 with field value 0 and w = 1 lands in
the bucket of isoline value 0. -/
theorem row_coverage_amended_witness :
    ((0 : ℚ) < 1 ∧ ([0, 1] : List ℚ) ≠ [] ∧
      0 < ([⟨0, 0, 0⟩, ⟨1, 0, 0⟩] : List Vec3).length ∧
      (0 : ℚ) ≤ ([0, 1] : List ℚ).getD 0 0 ∧
      ([0, 1] : List ℚ).getD 0 0 + 1 / 2 ≤ npMax [0, 1] ∧
      ∀ k : ℕ, ([0, 1] : List ℚ).getD 0 0 ≠ (k : ℚ) * 1 + 1 / 2) ∧
    (∃ rows, find_row_order [⟨0, 0, 0⟩, ⟨1, 0, 0⟩] [] [0, 1] 1 = some rows ∧
      ∃ k, k < rows.length ∧
        ({ vert_index := 0, raw_distance := ([0, 1] : List ℚ).getD 0 0,
           reg_distance := (k : ℚ) * 1 } : RowEntry) ∈ rows.getD k []) :=
  ⟨⟨by norm_num, by simp, by norm_num, by norm_num,
      by norm_num [npMax],
      by
        intro k heq
        have hk : (0 : ℚ) ≤ (k : ℚ) := Nat.cast_nonneg k
        norm_num at heq
        linarith⟩,
    row_coverage_amended [⟨0, 0, 0⟩, ⟨1, 0, 0⟩] [] [0, 1] 1 (by norm_num)
      (by simp) 0 (by norm_num) (by norm_num) (by norm_num [npMax])
      (by
        intro k heq
        have hk : (0 : ℚ) ≤ (k : ℚ) := Nat.cast_nonneg k
        norm_num at heq
        linarith)⟩

/-- Evaluation of find_row_order on the flat unit square scenario:
field [0, 1, 1, 2] and w = 1/2 produce four buckets, for isoline
values 0, 1/2, 1 and 3/2 (np.arange(0, 2, 0.5) has four entries). -/
lemma square_scenario_rows :
    find_row_order [⟨0, 0, 0⟩, ⟨1, 0, 0⟩, ⟨0, 1, 0⟩, ⟨1, 1, 0⟩]
        [(0, 1, 2), (1, 3, 2)] [0, 1, 1, 2] (1 / 2) =
      some [[⟨0, 0, 0⟩], [], [⟨1, 1, 1⟩, ⟨2, 1, 1⟩], []] := by
  have hmax : npMax [0, 1, 1, 2] = 2 := by norm_num [npMax]
  have hstep : ((2 : ℚ) - 0) / (1 / 2) = 4 := by norm_num
  have hceil : (⌈(4 : ℚ)⌉) = 4 := by norm_num
  rw [find_row_order, if_neg (by simp), npArange,
    if_neg (by norm_num : (1 : ℚ) / 2 ≠ 0), hmax, hstep, hceil,
    show ((4 : ℤ).toNat) = 4 from rfl]
  simp only [List.range_succ, List.range_zero, List.nil_append,
    List.cons_append, List.map_cons, List.map_nil, Option.map_some']
  norm_num [rowBucket, List.range_succ, abs_sub_lt_iff, abs_lt,
    List.filterMap_cons, List.filterMap_nil, List.getElem?_cons_zero,
    List.getElem?_cons_succ, Option.getD_some]

/-- C5 counterexample: on the flat unit square scenario the returned
row order has four buckets, not the two buckets (isoline values
[0, 0.5]) the claim asserts. -/
theorem square_scenario_counterexample :
    (find_row_order [⟨0, 0, 0⟩, ⟨1, 0, 0⟩, ⟨0, 1, 0⟩, ⟨1, 1, 0⟩]
        [(0, 1, 2), (1, 3, 2)] [0, 1, 1, 2] (1 / 2)).map List.length ≠
      some 2 := by
  rw [square_scenario_rows]
  simp

/-- C5 amended: the flat unit square scenario yields four isoline
values 0, 0.5, 1, 1.5 (np.arange runs to max = 2): the bucket at 0
holds vertex 0 only, the bucket at 0.5 is empty, the bucket at 1
holds vertices 1 and 2, the bucket at 1.5 is empty; and
generate_crochet_pattern returns seed_vertex = 0. -/
theorem square_scenario_eval :
    find_row_order [⟨0, 0, 0⟩, ⟨1, 0, 0⟩, ⟨0, 1, 0⟩, ⟨1, 1, 0⟩]
        [(0, 1, 2), (1, 3, 2)] [0, 1, 1, 2] (1 / 2) =
      some [[⟨0, 0, 0⟩], [], [⟨1, 1, 1⟩, ⟨2, 1, 1⟩], []] ∧
    (generate_crochet_pattern [⟨0, 0, 0⟩, ⟨1, 0, 0⟩, ⟨0, 1, 0⟩, ⟨1, 1, 0⟩]
        [(0, 1, 2), (1, 3, 2)] [0, 1, 1, 2]).seed_vertex = 0 := by
  refine ⟨square_scenario_rows, ?_⟩
  norm_num [generate_crochet_pattern, npArgmin, argminAux]

/-- C6: for every in-range vertex index i, the gradient list has one
entry per vertex; the neighbor set consists exactly of the in-range
indices within squared distance eps2 of vertex i (which includes i
itself); and the gradient at i is the mean over the neighbors of
(values[j] - values[i]) * (position[j] - position[i]) when there are
at least two neighbors, and the zero vector otherwise. -/
theorem gradient_mean_spec (vertices : List Vec3) (values : List ℚ) (i : ℕ)
    (hi : i < vertices.length) :
    (compute_gradient vertices values).length = vertices.length ∧
    (∀ j : ℕ, j ∈ neighborIdx vertices (vertices.getD i Vec3.zero) ↔
      j < vertices.length ∧
      dist2 (vertices.getD j Vec3.zero) (vertices.getD i Vec3.zero) < eps2) ∧
    (compute_gradient vertices values).getD i Vec3.zero =
      (if 2 ≤ (neighborIdx vertices (vertices.getD i Vec3.zero)).length then
        Vec3.smul
          (1 / ((neighborIdx vertices (vertices.getD i Vec3.zero)).length : ℚ))
          (vecSum ((neighborIdx vertices (vertices.getD i Vec3.zero)).map
            (fun j => Vec3.smul (values.getD j 0 - values.getD i 0)
              (Vec3.sub (vertices.getD j Vec3.zero)
                (vertices.getD i Vec3.zero)))))
      else Vec3.zero) := by
  refine ⟨?_, ?_, ?_⟩
  · rw [compute_gradient, List.length_map, List.length_range]
  · intro j
    rw [neighborIdx, List.mem_filter, List.mem_range]
    simp [decide_eq_true_iff]
  · rw [compute_gradient, getD_map_range _ _ _ _ hi]
    rfl

/-- C6 witness: two coincident vertices; each has both indices as
neighbors, and the gradient formula applies (the offsets vanish, so
the mean is the zero vector, but through the mean branch). -/
theorem gradient_mean_spec_witness :
    (0 < ([⟨0, 0, 0⟩, ⟨0, 0, 0⟩] : List Vec3).length) ∧
    ((compute_gradient [⟨0, 0, 0⟩, ⟨0, 0, 0⟩] [0, 2]).length =
      ([⟨0, 0, 0⟩, ⟨0, 0, 0⟩] : List Vec3).length ∧
    (∀ j : ℕ, j ∈ neighborIdx [⟨0, 0, 0⟩, ⟨0, 0, 0⟩]
        (([⟨0, 0, 0⟩, ⟨0, 0, 0⟩] : List Vec3).getD 0 Vec3.zero) ↔
      j < ([⟨0, 0, 0⟩, ⟨0, 0, 0⟩] : List Vec3).length ∧
      dist2 (([⟨0, 0, 0⟩, ⟨0, 0, 0⟩] : List Vec3).getD j Vec3.zero)
        (([⟨0, 0, 0⟩, ⟨0, 0, 0⟩] : List Vec3).getD 0 Vec3.zero) < eps2) ∧
    (compute_gradient [⟨0, 0, 0⟩, ⟨0, 0, 0⟩] [0, 2]).getD 0 Vec3.zero =
      (if 2 ≤ (neighborIdx [⟨0, 0, 0⟩, ⟨0, 0, 0⟩]
          (([⟨0, 0, 0⟩, ⟨0, 0, 0⟩] : List Vec3).getD 0 Vec3.zero)).length then
        Vec3.smul
          (1 / ((neighborIdx [⟨0, 0, 0⟩, ⟨0, 0, 0⟩]
            (([⟨0, 0, 0⟩, ⟨0, 0, 0⟩] : List Vec3).getD 0 Vec3.zero)).length : ℚ))
          (vecSum ((neighborIdx [⟨0, 0, 0⟩, ⟨0, 0, 0⟩]
              (([⟨0, 0, 0⟩, ⟨0, 0, 0⟩] : List Vec3).getD 0 Vec3.zero)).map
            (fun j => Vec3.smul
              (([0, 2] : List ℚ).getD j 0 - ([0, 2] : List ℚ).getD 0 0)
              (Vec3.sub (([⟨0, 0, 0⟩, ⟨0, 0, 0⟩] : List Vec3).getD j Vec3.zero)
                (([⟨0, 0, 0⟩, ⟨0, 0, 0⟩] : List Vec3).getD 0 Vec3.zero)))))
      else Vec3.zero)) :=
  ⟨by norm_num,
    gradient_mean_spec [⟨0, 0, 0⟩, ⟨0, 0, 0⟩] [0, 2] 0 (by norm_num)⟩

/-- C7: find_column_order returns the solver's x field unchanged even
when the solver reports failure (success = false): the unconverged
vector is returned as the result and the diagnostic status is
discarded, since the return type carries no status channel.  This
contradicts the claim, which is taken as the spec's intent; the code
never inspects result.success or result.status. -/
theorem column_order_ignores_solver_status
    (minimizeImpl : List ℚ → List Vec3 × List Vec3 × List (ℚ × ℚ) →
      OptimizeResult)
    (vertices : List Vec3) (f_values : List ℚ) (boundary_indices : List ℕ)
    (hfail : (minimizeImpl
        (setBoundary (List.replicate vertices.length 0) boundary_indices)
        (vertices, compute_gradient vertices f_values,
          rotated_gradient (compute_gradient vertices f_values))).success =
      false) :
    find_column_order minimizeImpl vertices f_values boundary_indices =
      (minimizeImpl
        (setBoundary (List.replicate vertices.length 0) boundary_indices)
        (vertices, compute_gradient vertices f_values,
          rotated_gradient (compute_gradient vertices f_values))).x := rfl

/-- C7 witness: a solver that reports non-convergence with the vector
[5, 7]; find_column_order hands back exactly [5, 7]. -/
theorem column_order_ignores_solver_status_witness :
    (((fun (_ : List ℚ)
        (_ : List Vec3 × List Vec3 × List (ℚ × ℚ)) =>
          ({ x := [5, 7], success := false, status := 2 } : OptimizeResult))
        (setBoundary (List.replicate ([⟨0, 0, 0⟩] : List Vec3).length 0) [0])
        ([⟨0, 0, 0⟩], compute_gradient [⟨0, 0, 0⟩] [0],
          rotated_gradient (compute_gradient [⟨0, 0, 0⟩] [0]))).success =
      false) ∧
    find_column_order
      (fun (_ : List ℚ) (_ : List Vec3 × List Vec3 × List (ℚ × ℚ)) =>
        ({ x := [5, 7], success := false, status := 2 } : OptimizeResult))
      [⟨0, 0, 0⟩] [0] [0] = [5, 7] :=
  ⟨rfl, column_order_ignores_solver_status
    (fun _ _ => { x := [5, 7], success := false, status := 2 })
    [⟨0, 0, 0⟩] [0] [0] rfl⟩

/-- C8: at the failing input w = -1 with field [0, 1], the isoline
sequence is empty and find_row_order returns the empty row list as an
ordinary result - no input-validation failure is signalled; at w = 0
the embedded np.arange raises (modelled none), an unhandled
ZeroDivisionError rather than a validation error.  This contradicts
the claim, which is taken as the spec's intent. -/
theorem nonpositive_w_silent_result :
    find_row_order [⟨0, 0, 0⟩, ⟨1, 0, 0⟩] [] [0, 1] (-1) = some [] ∧
    find_row_order [⟨0, 0, 0⟩, ⟨1, 0, 0⟩] [] [0, 1] 0 = none := by
  constructor
  · rw [find_row_order, if_neg (by simp), npArange,
      if_neg (by norm_num : (-1 : ℚ) ≠ 0)]
    have hmax : npMax [0, 1] = 1 := by norm_num [npMax]
    have h1 : ((1 : ℚ) - 0) / (-1) = -1 := by norm_num
    have h0 : (⌈(-1 : ℚ)⌉) = -1 := by
      rw [show ((-1) : ℚ) = ((-1 : ℤ) : ℚ) by norm_num, Int.ceil_intCast]
    rw [hmax, h1, h0]
    rfl
  · rw [find_row_order, if_neg (by simp), npArange, if_pos rfl]
    rfl
